import Mathlib

/-!
Shallow embedding of src/holoviews/ipython/parser.py.

The module defines two small-language parsers built on pyparsing:
a base Parser with token collection and keyword-list evaluation, an
OptsSpec options-line parser, and a CompositorSpec compositor-line
parser.  pyparsing itself, the Python eval builtin, and the registry
of compositor operations are external collaborators: they are modelled
as oracle inputs (scan results, parse-result group lists, an evaluation
oracle, and a name-to-operation table).  Python exceptions are modelled
with an explicit error type; fallible code returns Except.
-/

/-- Python exceptions raised by the parser module.  The text of a
SyntaxError is the message built at the raise site (Python percent-r
formatting of an embedded value is modelled by splicing the value in
directly, without the repr quotes). -/
inductive PyError where
  | syntaxError (msg : String)
  | keyError (key : String)
  | indexError (msg : String)
  deriving DecidableEq, Repr

/-- Python values produced by evaluating keyword fragments.  The claims
only exercise integer (and string/bool) literals. -/
inductive PyVal where
  | int (n : Int)
  | str (s : String)
  | bool (b : Bool)
  deriving DecidableEq, Repr

/-- A child of a pyparsing parse result, as seen by asList(): either a
string token or a nested group (a list of string tokens).  Deeper
nesting is not representable because the source joins nested children
with a plain string join, which only accepts strings. -/
inductive PChild where
  | str (s : String)
  | lst (l : List String)
  deriving DecidableEq, Repr

/-- An external compositor operation object, identified by its name
(the source builds the table from op.__name__). -/
structure Operation where
  name : String
  deriving DecidableEq, Repr

/-- Python dict modelled as an association list with insert-or-replace
updates (insertion order preserved, as in Python). -/
abbrev PDict (α : Type) := List (String × α)

def pyGet? {α : Type} : PDict α → String → Option α
  | [], _ => none
  | (k0, v) :: rest, k => if k0 = k then some v else pyGet? rest k

def pySet {α : Type} : PDict α → String → α → PDict α
  | [], k, v => [(k, v)]
  | (k0, v0) :: rest, k, v =>
      if k0 = k then (k0, v) :: rest else (k0, v0) :: pySet rest k v

/-- dict.update: apply each key/value pair of the right dict in order. -/
def pyUpdate {α : Type} (d : PDict α) (upd : List (String × α)) : PDict α :=
  upd.foldl (fun acc kv => pySet acc kv.1 kv.2) d

/-! ### Python string primitives (code-point based, as in Python) -/

def isWS (c : Char) : Bool := c.isWhitespace

/-- Python str.strip(): drop leading and trailing whitespace. -/
def pyStrip (s : String) : String :=
  ⟨((s.data.dropWhile isWS).reverse.dropWhile isWS).reverse⟩

/-- Python slice s[:n]. -/
def pyTake (s : String) (n : Nat) : String := ⟨s.data.take n⟩

/-- Python slice s[n:]. -/
def pyDrop (s : String) (n : Nat) : String := ⟨s.data.drop n⟩

/-- Python str.endswith. -/
def pyEndsWith (s suffix : String) : Bool := suffix.data.isSuffixOf s.data

/-- Python test `c in s` for a single character. -/
def hasEq (s : String) : Bool := s.data.contains '='

instance {ε α : Type} [DecidableEq ε] [DecidableEq α] : DecidableEq (Except ε α)
  | Except.error e1, Except.error e2 =>
    if h : e1 = e2 then isTrue (by rw [h])
    else isFalse (by intro c; injection c; contradiction)
  | Except.error _, Except.ok _ => isFalse (by intro c; exact Except.noConfusion c)
  | Except.ok _, Except.error _ => isFalse (by intro c; exact Except.noConfusion c)
  | Except.ok a1, Except.ok a2 =>
    if h : a1 = a2 then isTrue (by rw [h])
    else isFalse (by intro c; injection c; contradiction)

/-! ### Parser base class (Parser.collect_tokens / Parser.todict)

The evaluation namespace of the Parser class is empty; the Python eval
builtin is external and is modelled by an oracle that maps a keyword
fragment to the keyword/value pairs of `dict(fragment)`, or to none when
evaluation raises. -/

/-- Oracle for the Python builtin eval applied as eval(dict(fragment)). -/
abbrev EvalOracle := String → Option (List (String × PyVal))

/-- Parser._strip_commas: strip one trailing and then one leading comma.
Python evaluates kw[-1] first and kw[0] second; indexing an empty string
raises IndexError. -/
def Parser._strip_commas (kw : String) : Except PyError String :=
  match kw.data.getLast? with
  | none => Except.error (PyError.indexError "string index out of range")
  | some clast =>
    let kw1 : String := if clast = ',' then ⟨kw.data.dropLast⟩ else kw
    match kw1.data.head? with
    | none => Except.error (PyError.indexError "string index out of range")
    | some cfirst =>
      Except.ok (if cfirst = ',' then ⟨kw1.data.drop 1⟩ else kw1)

/-- The wrapper for a re-serialized nested group:
inner = (percent-s in parens) if mode == parens else in brackets. -/
def innerWrap (mode : String) (l : List String) : String :=
  if mode = "parens" then "(" ++ String.join l ++ ")"
  else "[" ++ String.join l ++ "]"

/-- tokens[-1] = tokens[-1] + suffix on a Python list. -/
def appendToLast : List String → String → List String
  | [], _ => []
  | [x], suffix => [x ++ suffix]
  | x :: y :: xs, suffix => x :: appendToLast (y :: xs) suffix

/-- The loop body of Parser.collect_tokens, walking the children of the
parse result in order while building the token list.  Reading tokens[-1]
on an empty list raises IndexError. -/
def collectAux (inner : List String → String) :
    List PChild → List String → Except PyError (List String)
  | [], tokens => Except.ok tokens
  | PChild.lst l :: rest, tokens =>
    match tokens with
    | [] => Except.error (PyError.indexError "list index out of range")
    | t :: ts => collectAux inner rest (appendToLast (t :: ts) (inner l))
  | PChild.str tok :: rest, tokens =>
    if pyStrip tok = "," then collectAux inner rest tokens
    else
      match Parser._strip_commas tok with
      | Except.error e => Except.error e
      | Except.ok kw => collectAux inner rest (tokens ++ [kw])

/-- Parser.collect_tokens: collect the tokens from a (potentially)
nested parse result.  A None parse result yields no tokens. -/
def Parser.collect_tokens (parseresult : Option (List PChild)) (mode : String) :
    Except PyError (List String) :=
  match parseresult with
  | none => Except.ok []
  | some children => collectAux (innerWrap mode) children []

/-- itertools.groupby over the token list keyed by a Bool predicate:
maximal runs of tokens with the same predicate value. -/
def splitRuns (p : String → Bool) : List String → List (Bool × List String)
  | [] => []
  | x :: xs =>
    match splitRuns p xs with
    | [] => [(p x, [x])]
    | (b, run) :: rest =>
      if p x = b then (b, x :: run) :: rest else (p x, [x]) :: (b, run) :: rest

/-- The grouping loop of Parser.todict: a run of tokens containing an
equals sign contributes each token as a new fragment; a run without it
is joined and appended onto grouped[-1] (IndexError when grouped is
empty). -/
def groupRuns : List (Bool × List String) → List String → Except PyError (List String)
  | [], grouped => Except.ok grouped
  | (val, items) :: rest, grouped =>
    if val then groupRuns rest (grouped ++ items)
    else
      match grouped with
      | [] => Except.error (PyError.indexError "list index out of range")
      | g :: gs => groupRuns rest (appendToLast (g :: gs) (String.join items))

def groupTokens (tokens : List String) : Except PyError (List String) :=
  groupRuns (splitRuns hasEq tokens) []

/-- The evaluation loop of Parser.todict: evaluate each keyword fragment
with the external eval oracle, merging results into the kwargs dict; a
failing fragment raises a SyntaxError naming it. -/
def evalFragments (evalKw : EvalOracle) :
    List String → PDict PyVal → Except PyError (PDict PyVal)
  | [], kwargs => Except.ok kwargs
  | kw :: rest, kwargs =>
    match evalKw kw with
    | some kvs => evalFragments evalKw rest (pyUpdate kwargs kvs)
    | none => Except.error (PyError.syntaxError ("Could not evaluate keyword: " ++ kw))

/-- Parser.todict: dictionary from the parse results of a nested
expression containing keywords. -/
def Parser.todict (evalKw : EvalOracle) (parseresult : Option (List PChild))
    (mode : String) : Except PyError (PDict PyVal) :=
  match Parser.collect_tokens parseresult mode with
  | Except.error e => Except.error e
  | Except.ok tokens =>
    match groupTokens tokens with
    | Except.error e => Except.error e
    | Except.ok grouped => evalFragments evalKw grouped []

/-! ### OptsSpec -/

/-- The two normalization booleans; models the keyword arguments of the
Options value built from a norm block. -/
structure NormSettings where
  groupwise : Bool
  mapwise : Bool
  deriving DecidableEq, Repr

def normFlags : List String := ["+mapwise", "-mapwise", "+groupwise", "-groupwise"]

def excludedPairs : List (String × String) :=
  [("+mapwise", "-mapwise"), ("+groupwise", "-groupwise")]

def repeatedMsg (flag : String) : String :=
  "Normalization specification must not contain repeated " ++ flag

def unknownMsg : String :=
  "Normalization option not one of " ++ String.intercalate ", " normFlags

def pairMsg (a b : String) : String :=
  "Normalization specification cannot contain both " ++ a ++ " and " ++ b

/-- The reduction step of OptsSpec.process_normalization once the token
list has been validated: a single token ending in mapwise or groupwise
defaults the other family to true; otherwise each boolean is the
presence of the positive flag. -/
def reduceNorm (opts : List String) : NormSettings :=
  match opts with
  | [single] =>
    if pyEndsWith single "mapwise" then
      ⟨true, decide ("+mapwise" ∈ opts)⟩
    else if pyEndsWith single "groupwise" then
      ⟨decide ("+groupwise" ∈ opts), true⟩
    else
      ⟨decide ("+groupwise" ∈ opts), decide ("+mapwise" ∈ opts)⟩
  | _ => ⟨decide ("+groupwise" ∈ opts), decide ("+mapwise" ∈ opts)⟩

/-- OptsSpec.process_normalization: validate the norm-option token list
and reduce it to the groupwise/mapwise settings.  The argument is the
token list of the norm block when one was matched (the source reads it
from the parse group), or none when the block is absent. -/
def OptsSpec.process_normalization (norm_options : Option (List String)) :
    Except PyError (Option NormSettings) :=
  match norm_options with
  | none => Except.ok none
  | some opts =>
    if opts = [] then Except.ok none
    else
      match List.find? (fun f => decide (1 < opts.count f)) normFlags with
      | some o => Except.error (PyError.syntaxError (repeatedMsg o))
      | none =>
        if ¬ (∀ o ∈ opts, o ∈ normFlags) then
          Except.error (PyError.syntaxError unknownMsg)
        else
          match List.find? (fun p => decide (p.1 ∈ opts) && decide (p.2 ∈ opts))
              excludedPairs with
          | some p => Except.error (PyError.syntaxError (pairMsg p.1 p.2))
          | none => Except.ok (some (reduceNorm opts))

/-- One group matched by the opts_spec grammar: the path spec plus the
optional norm/plot/style sub-results.  norm_options holds the token
list of the matched norm block; plot_options and style_options hold the
nested parse result handed to Parser.todict. -/
structure OptsGroup where
  pathspec : String
  norm_options : Option (List String)
  plot_options : Option (List PChild)
  style_options : Option (List PChild)
  deriving DecidableEq, Repr

/-- The per-path options record assembled by OptsSpec.parse.  The
external Options constructor wraps a keyword mapping without changing
it, so an Options value is modelled by its settings. -/
structure OptsRecord where
  norm : Option NormSettings
  plot : Option (PDict PyVal)
  style : Option (PDict PyVal)
  deriving DecidableEq, Repr

/-- The loop body of OptsSpec.parse for one group: normalization first,
then plot options (brackets mode), then style options (parens mode). -/
def processGroup (evalKw : EvalOracle) (g : OptsGroup) : Except PyError OptsRecord :=
  match OptsSpec.process_normalization g.norm_options with
  | Except.error e => Except.error e
  | Except.ok normalization =>
    match (match g.plot_options with
           | some pr => Except.map some (Parser.todict evalKw (some pr) "brackets")
           | none => Except.ok none) with
    | Except.error e => Except.error e
    | Except.ok plot =>
      match (match g.style_options with
             | some pr => Except.map some (Parser.todict evalKw (some pr) "parens")
             | none => Except.ok none) with
      | Except.error e => Except.error e
      | Except.ok style => Except.ok ⟨normalization, plot, style⟩

/-- The result-assembly loop of OptsSpec.parse:
parse[group.pathspec] = options for each group in order. -/
def foldOpts (evalKw : EvalOracle) :
    List OptsGroup → PDict OptsRecord → Except PyError (PDict OptsRecord)
  | [], parse => Except.ok parse
  | g :: gs, parse =>
    match processGroup evalKw g with
    | Except.error e => Except.error e
    | Except.ok r => foldOpts evalKw gs (pySet parse g.pathspec r)

/-- The whole-line validation shared by OptsSpec.parse and
CompositorSpec.parse: the scanString result must hold exactly one match
(token list, start, end), and the matched prefix line[:e] must equal the
line up to whitespace, else the remainder line[e:] is reported. -/
def checkWholeLine {κ : Type} (line : String) (scans : List (κ × Nat × Nat)) :
    Except PyError Unit :=
  match scans with
  | [(_, _, e)] =>
    if pyStrip (pyTake line e) = pyStrip line then Except.ok ()
    else
      Except.error (PyError.syntaxError
        ("Failed to parse remainder of string: " ++ pyDrop line e))
  | _ => Except.error (PyError.syntaxError "Invalid specification syntax.")

/-- OptsSpec.parse.  The pyparsing grammar is external: scans models the
list built from opts_spec.scanString(line) and groups models
opts_spec.parseString(line). -/
def OptsSpec.parse (evalKw : EvalOracle)
    (scans : List (List OptsGroup × Nat × Nat))
    (groups : List OptsGroup) (line : String) :
    Except PyError (PDict OptsRecord) :=
  match checkWholeLine line scans with
  | Except.error e => Except.error e
  | Except.ok _ => foldOpts evalKw groups []

/-! ### CompositorSpec -/

/-- One group matched by the compositor_spec grammar.  mode is optional
to model the membership test on the parse group; spec holds the token
list of the parenthesized overlay expression; op_settings holds the
nested parse result of the bracketed settings block. -/
structure CompGroup where
  mode : Option String
  op : String
  spec : List String
  value : String
  op_settings : Option (List PChild)
  deriving DecidableEq, Repr

/-- A compositor definition record: the arguments handed to the external
Compositor constructor. -/
structure CompositorDef where
  spec : String
  operation : Operation
  value : String
  mode : String
  kwargs : PDict PyVal
  deriving DecidableEq, Repr

def modeMsg : String := "Either data or display mode must be specified."

def unavailableMsg (op : String) : String :=
  "Operation " ++ op ++ " not available for use with compositors."

/-- The loop body of CompositorSpec.parse for one group.  Note the order
taken from the source: the mode check comes first; then the operation is
read with opmap[group op], which raises KeyError for an unknown name;
the SyntaxError test for an unknown operation follows only after that
lookup; finally the optional settings block is evaluated. -/
def processCompGroup (evalKw : EvalOracle) (opmap : PDict Operation)
    (g : CompGroup) : Except PyError CompositorDef :=
  match g.mode with
  | none => Except.error (PyError.syntaxError modeMsg)
  | some mode =>
    if ¬ (mode = "data" ∨ mode = "display") then
      Except.error (PyError.syntaxError modeMsg)
    else
      match pyGet? opmap g.op with
      | none => Except.error (PyError.keyError g.op)
      | some operation =>
        let spec := String.intercalate " " g.spec
        if pyGet? opmap g.op = none then
          Except.error (PyError.syntaxError (unavailableMsg g.op))
        else
          match (match g.op_settings with
                 | some st => Parser.todict evalKw (some st) "brackets"
                 | none => Except.ok []) with
          | Except.error e => Except.error e
          | Except.ok kwargs => Except.ok ⟨spec, operation, g.value, mode, kwargs⟩

/-- The definitions-assembly loop of CompositorSpec.parse: the record of
each group is appended to the list in source order. -/
def foldComp (evalKw : EvalOracle) (opmap : PDict Operation) :
    List CompGroup → List CompositorDef → Except PyError (List CompositorDef)
  | [], defs => Except.ok defs
  | g :: gs, defs =>
    match processCompGroup evalKw opmap g with
    | Except.error e => Except.error e
    | Except.ok d => foldComp evalKw opmap gs (defs ++ [d])

/-- CompositorSpec.parse.  opmap models the table built from the
external registry of Compositor.operations keyed by operation name;
scans and groups model scanString and parseString of the grammar. -/
def CompositorSpec.parse (evalKw : EvalOracle) (opmap : PDict Operation)
    (scans : List (List CompGroup × Nat × Nat))
    (groups : List CompGroup) (line : String) :
    Except PyError (List CompositorDef) :=
  match checkWholeLine line scans with
  | Except.error e => Except.error e
  | Except.ok _ => foldComp evalKw opmap groups []

/-! ### Auxiliary definitions used by the claim statements -/

/-- Is the outcome a SyntaxError? -/
def isSyntaxError {α : Type} : Except PyError α → Bool
  | Except.error (PyError.syntaxError _) => true
  | _ => false

/-- An eval oracle on which every fragment fails to evaluate. -/
def evalNone : EvalOracle := fun _ => none

/-- A concrete snapshot of the eval oracle covering the literal keyword
fragments appearing in the examples of the specification. -/
def evalDemo : EvalOracle := fun s =>
  if s = "a=1" then some [("a", PyVal.int 1)]
  else if s = "a=2" then some [("a", PyVal.int 2)]
  else if s = "kwarg=1" then some [("kwarg", PyVal.int 1)]
  else none

/-- Default when a family of normalization flags is unspecified: the
positive form forces true, the negative form forces false, absence of
both defaults to true. -/
def famDefault (opts : List String) (pos neg : String) : Bool :=
  if pos ∈ opts then true else if neg ∈ opts then false else true

/-- Strip exactly one leading and one trailing separator character, if
present; written from the words of the specification for comparison
with Parser._strip_commas. -/
def strip_one_each_side (t : String) : String :=
  let t1 : String := if t.data.head? = some ',' then ⟨t.data.drop 1⟩ else t
  if t1.data.getLast? = some ',' then ⟨t1.data.dropLast⟩ else t1

/-- The token-collection walk as described by the specification: a
nested-list child is joined, wrapped, and appended onto the previously
emitted token; a bare-separator child is dropped; every other child is
emitted with one separator stripped from each side.  Appending onto a
previous token when none has been emitted is the undefined case and is
kept as the IndexError outcome. -/
def describedCollect (inner : List String → String) :
    List PChild → List String → Except PyError (List String)
  | [], acc => Except.ok acc
  | PChild.lst l :: rest, acc =>
    match acc with
    | [] => Except.error (PyError.indexError "list index out of range")
    | t :: ts => describedCollect inner rest (appendToLast (t :: ts) (inner l))
  | PChild.str tok :: rest, acc =>
    if pyStrip tok = "," then describedCollect inner rest acc
    else describedCollect inner rest (acc ++ [strip_one_each_side tok])

/-- The first child that is not a dropped bare-separator string is a
nested list. -/
def firstEmitIsList : List PChild → Bool
  | [] => false
  | PChild.lst _ :: _ => true
  | PChild.str t :: rest => if pyStrip t = "," then firstEmitIsList rest else false

/-- Every nested-list child is preceded by at least one non-list child
that is not a bare separator. -/
def listChildPreceded (children : List PChild) : Prop :=
  ∀ pre l suf, children = pre ++ PChild.lst l :: suf →
    ∃ t, PChild.str t ∈ pre ∧ pyStrip t ≠ ","

/-! ### Helper lemmas -/

lemma famDefault_of_family {opts : List String} {pos neg : String}
    (h : pos ∈ opts ∨ neg ∈ opts) :
    famDefault opts pos neg = decide (pos ∈ opts) := by
  unfold famDefault
  by_cases hp : pos ∈ opts
  · simp [hp]
  · rcases h with h | h
    · exact absurd h hp
    · simp [hp, h]

lemma both_families_present (x y : String) (ys : List String)
    (hall : ∀ o ∈ x :: y :: ys, o ∈ normFlags)
    (hcount : ∀ f ∈ normFlags, (x :: y :: ys).count f ≤ 1)
    (hmap : ¬ ("+mapwise" ∈ x :: y :: ys ∧ "-mapwise" ∈ x :: y :: ys))
    (hgroup : ¬ ("+groupwise" ∈ x :: y :: ys ∧ "-groupwise" ∈ x :: y :: ys)) :
    ("+mapwise" ∈ x :: y :: ys ∨ "-mapwise" ∈ x :: y :: ys) ∧
    ("+groupwise" ∈ x :: y :: ys ∨ "-groupwise" ∈ x :: y :: ys) := by
  have hx := hall x (by simp)
  have hy := hall y (by simp)
  by_cases hxy : x = y
  · exfalso
    have hc := hcount x hx
    subst hxy
    simp [List.count_cons_self] at hc
  · simp only [normFlags, List.mem_cons, List.not_mem_nil, or_false] at hx hy
    rcases hx with rfl | rfl | rfl | rfl <;> rcases hy with rfl | rfl | rfl | rfl <;>
      first
        | exact absurd rfl hxy
        | (refine absurd ⟨?_, ?_⟩ hmap <;> (simp; done))
        | (refine absurd ⟨?_, ?_⟩ hgroup <;> (simp; done))
        | (refine ⟨?_, ?_⟩ <;> (simp; done))

lemma checkWholeLine_len {κ : Type} (line : String) (scans : List (κ × Nat × Nat))
    (h : scans.length ≠ 1) :
    checkWholeLine line scans =
      Except.error (PyError.syntaxError "Invalid specification syntax.") := by
  match scans with
  | [] => rfl
  | [x] => exact absurd rfl h
  | x :: y :: rest => rfl

lemma checkWholeLine_rem {κ : Type} (line : String) (k : κ) (s e : Nat)
    (h : pyStrip (pyTake line e) ≠ pyStrip line) :
    checkWholeLine line [(k, s, e)] =
      Except.error (PyError.syntaxError
        ("Failed to parse remainder of string: " ++ pyDrop line e)) := by
  simp only [checkWholeLine, if_neg h]

lemma checkWholeLine_ok {κ : Type} (line : String) (scans : List (κ × Nat × Nat))
    (h : checkWholeLine line scans = Except.ok ()) :
    scans.length = 1 ∧
      ∀ k s e, scans = [(k, s, e)] → pyStrip (pyTake line e) = pyStrip line := by
  match scans with
  | [] => exact absurd h (by simp [checkWholeLine])
  | [(k0, s0, e0)] =>
    refine ⟨rfl, ?_⟩
    intro k s e heq
    have he : e0 = e := by
      simp only [List.cons.injEq, Prod.mk.injEq] at heq
      exact heq.1.2.2
    subst he
    by_cases hp : pyStrip (pyTake line e0) = pyStrip line
    · exact hp
    · exact absurd h (by simp [checkWholeLine, if_neg hp])
  | x :: y :: rest => exact absurd h (by simp [checkWholeLine])

lemma splitRuns_cons_head (p : String → Bool) (x : String) (xs : List String) :
    ∃ run rest2, splitRuns p (x :: xs) = (p x, x :: run) :: rest2 := by
  simp only [splitRuns]
  cases h : splitRuns p xs with
  | nil => exact ⟨[], [], rfl⟩
  | cons hd tl =>
    obtain ⟨b, run⟩ := hd
    by_cases hb : p x = b
    · exact ⟨run, tl, by simp [hb]⟩
    · exact ⟨[], (b, run) :: tl, by simp only [if_neg hb]⟩

lemma evalFragments_fail (evalKw : EvalOracle) :
    ∀ (grouped : List String) (acc : PDict PyVal) (frag : String),
      grouped.find? (fun f => (evalKw f).isNone) = some frag →
      evalFragments evalKw grouped acc =
        Except.error (PyError.syntaxError ("Could not evaluate keyword: " ++ frag)) := by
  intro grouped
  induction grouped with
  | nil => intro acc frag h; simp at h
  | cons kw rest ih =>
    intro acc frag h
    cases he : evalKw kw with
    | none =>
      have hfrag : kw = frag := by
        rw [List.find?_cons_of_pos _ (by simp [he])] at h
        injection h
      subst hfrag
      simp only [evalFragments, he]
    | some kvs =>
      rw [List.find?_cons_of_neg _ (by simp [he])] at h
      simp only [evalFragments, he]
      exact ih _ frag h

lemma pyGet_pySet_same {α : Type} (d : PDict α) (k : String) (v : α) :
    pyGet? (pySet d k v) k = some v := by
  induction d with
  | nil => simp [pySet, pyGet?]
  | cons kv rest ih =>
    obtain ⟨k0, v0⟩ := kv
    by_cases h : k0 = k <;> simp [pySet, pyGet?, h, ih]

lemma pyGet_pySet_ne {α : Type} (d : PDict α) (k k2 : String) (v : α) (h : k ≠ k2) :
    pyGet? (pySet d k v) k2 = pyGet? d k2 := by
  induction d with
  | nil => simp [pySet, pyGet?, h]
  | cons kv rest ih =>
    obtain ⟨k0, v0⟩ := kv
    by_cases h0 : k0 = k
    · subst h0
      simp [pySet, pyGet?, h]
    · by_cases h2 : k0 = k2 <;> simp [pySet, pyGet?, h0, h2, ih, Ne.symm h]

lemma getLast?_cons_ne {α : Type} (a : α) (l : List α) (h : l ≠ []) :
    (a :: l).getLast? = l.getLast? := by
  cases l with
  | nil => exact absurd rfl h
  | cons b bs => simp [List.getLast?_cons_cons]

lemma foldOpts_last (evalKw : EvalOracle) :
    ∀ (gs : List OptsGroup) (acc res : PDict OptsRecord) (path : String),
      foldOpts evalKw gs acc = Except.ok res →
      (∀ gl, (gs.filter (fun g => decide (g.pathspec = path))).getLast? = some gl →
        ∃ r, processGroup evalKw gl = Except.ok r ∧ pyGet? res path = some r) ∧
      ((gs.filter (fun g => decide (g.pathspec = path))).getLast? = none →
        pyGet? res path = pyGet? acc path) := by
  intro gs
  induction gs with
  | nil =>
    intro acc res path h
    have hacc : acc = res := by simpa [foldOpts] using h
    subst hacc
    exact ⟨fun gl hgl => by simp at hgl, fun _ => rfl⟩
  | cons g rest ih =>
    intro acc res path h
    cases hp : processGroup evalKw g with
    | error e =>
      simp only [foldOpts, hp] at h
      exact absurd h (by simp)
    | ok r0 =>
      simp only [foldOpts, hp] at h
      have IH := ih (pySet acc g.pathspec r0) res path h
      cases hrest : (rest.filter (fun g2 => decide (g2.pathspec = path))).getLast? with
      | some gl =>
        have hne : rest.filter (fun g2 => decide (g2.pathspec = path)) ≠ [] := by
          intro hnil
          rw [hnil] at hrest
          simp at hrest
        constructor
        · intro gl2 hgl2
          rw [List.filter_cons] at hgl2
          have hsame : gl = gl2 := by
            by_cases hm : g.pathspec = path
            · rw [if_pos (by simpa using hm), getLast?_cons_ne _ _ hne, hrest] at hgl2
              exact Option.some.inj hgl2
            · rw [if_neg (by simpa using hm), hrest] at hgl2
              exact Option.some.inj hgl2
          subst hsame
          exact IH.1 gl hrest
        · intro hnone
          rw [List.filter_cons] at hnone
          by_cases hm : g.pathspec = path
          · rw [if_pos (by simpa using hm), getLast?_cons_ne _ _ hne, hrest] at hnone
            exact absurd hnone (by simp)
          · rw [if_neg (by simpa using hm), hrest] at hnone
            exact absurd hnone (by simp)
      | none =>
        have hnil : rest.filter (fun g2 => decide (g2.pathspec = path)) = [] := by
          simpa using hrest
        have IH2 := IH.2 hrest
        by_cases hm : g.pathspec = path
        · constructor
          · intro gl2 hgl2
            rw [List.filter_cons, if_pos (by simpa using hm), hnil] at hgl2
            have hg : g = gl2 := by simpa using hgl2
            subst hg
            refine ⟨r0, hp, ?_⟩
            rw [IH2, ← hm, pyGet_pySet_same]
          · intro hnone
            rw [List.filter_cons, if_pos (by simpa using hm), hnil] at hnone
            simp at hnone
        · constructor
          · intro gl2 hgl2
            rw [List.filter_cons, if_neg (by simpa using hm), hnil] at hgl2
            simp at hgl2
          · intro _
            rw [IH2, pyGet_pySet_ne acc g.pathspec path r0 hm]

/-- mapExcept f gs: the list of successful results of f on gs, or the
first error. -/
def mapExcept {α β : Type} (f : α → Except PyError β) : List α → Except PyError (List β)
  | [] => Except.ok []
  | a :: as =>
    match f a with
    | Except.error e => Except.error e
    | Except.ok b =>
      match mapExcept f as with
      | Except.error e => Except.error e
      | Except.ok bs => Except.ok (b :: bs)

lemma foldComp_mapExcept (evalKw : EvalOracle) (opmap : PDict Operation) :
    ∀ (gs : List CompGroup) (defs0 res : List CompositorDef),
      foldComp evalKw opmap gs defs0 = Except.ok res →
      ∃ ds, mapExcept (processCompGroup evalKw opmap) gs = Except.ok ds ∧
        res = defs0 ++ ds := by
  intro gs
  induction gs with
  | nil =>
    intro defs0 res h
    have : defs0 = res := by simpa [foldComp] using h
    subst this
    exact ⟨[], rfl, by simp⟩
  | cons g rest ih =>
    intro defs0 res h
    cases hp : processCompGroup evalKw opmap g with
    | error e =>
      rw [foldComp, hp] at h
      exact absurd h (by simp)
    | ok d =>
      rw [foldComp, hp] at h
      obtain ⟨ds, hmap, hres⟩ := ih (defs0 ++ [d]) res h
      refine ⟨d :: ds, ?_, ?_⟩
      · simp [mapExcept, hp, hmap]
      · simp [hres]

lemma mapExcept_ok_length {α β : Type} (f : α → Except PyError β) :
    ∀ (l : List α) (ds : List β), mapExcept f l = Except.ok ds → ds.length = l.length := by
  intro l
  induction l with
  | nil => intro ds h; simp [mapExcept] at h; simp [← h]
  | cons a as ih =>
    intro ds h
    cases hf : f a with
    | error e => rw [mapExcept, hf] at h; exact absurd h (by simp)
    | ok b =>
      rw [mapExcept, hf] at h
      cases hm : mapExcept f as with
      | error e => rw [hm] at h; exact absurd h (by simp)
      | ok bs =>
        rw [hm] at h
        have : b :: bs = ds := by simpa using h
        subst this
        simp [ih bs hm]

lemma strip_commas_error :
    ∀ (tok : String) (e : PyError), Parser._strip_commas tok = Except.error e →
      e = PyError.indexError "string index out of range" := by
  intro tok e h
  obtain ⟨cs⟩ := tok
  cases cs with
  | nil =>
    simp only [Parser._strip_commas] at h
    exact (Except.error.inj h).symm
  | cons c0 cs' =>
    cases hgl : (c0 :: cs').getLast? with
    | none => simp at hgl
    | some l =>
      simp only [Parser._strip_commas, hgl] at h
      by_cases hl : l = ','
      · rw [if_pos hl] at h
        cases cs' with
        | nil =>
          simp only [List.dropLast_single] at h
          exact (Except.error.inj h).symm
        | cons c1 cs'' =>
          rw [List.dropLast_cons₂] at h
          simp at h
      · rw [if_neg hl] at h
        simp at h

lemma strip_commas_described (tok : String) (hne : tok ≠ "")
    (hsep : pyStrip tok ≠ ",") :
    Parser._strip_commas tok = Except.ok (strip_one_each_side tok) := by
  obtain ⟨cs⟩ := tok
  cases cs with
  | nil => exact absurd rfl hne
  | cons c0 cs' =>
    cases cs' with
    | nil =>
      by_cases hc : c0 = ','
      · subst hc
        exact absurd (by decide) hsep
      · simp [Parser._strip_commas, strip_one_each_side, hc]
    | cons c1 cs'' =>
      cases hgl : (c1 :: cs'').getLast? with
      | none => simp at hgl
      | some l =>
        by_cases hc0 : c0 = ',' <;> by_cases hl : l = ','
        · subst hc0; subst hl
          simp [Parser._strip_commas, strip_one_each_side, List.getLast?_cons_cons,
            hgl, List.dropLast_cons₂]
        · subst hc0
          simp [Parser._strip_commas, strip_one_each_side, List.getLast?_cons_cons,
            hgl, hl]
        · subst hl
          simp [Parser._strip_commas, strip_one_each_side, List.getLast?_cons_cons,
            hgl, hc0, List.dropLast_cons₂]
        · simp [Parser._strip_commas, strip_one_each_side, List.getLast?_cons_cons,
            hgl, hc0, hl]

lemma appendToLast_ne_nil (t : String) (ts : List String) (suffix : String) :
    appendToLast (t :: ts) suffix ≠ [] := by
  cases ts <;> simp [appendToLast]

lemma collectAux_described (inner : List String → String) :
    ∀ (children : List PChild) (tokens : List String),
      (∀ t, PChild.str t ∈ children → t ≠ "") →
      collectAux inner children tokens = describedCollect inner children tokens := by
  intro children
  induction children with
  | nil => intro tokens _; rfl
  | cons c rest ih =>
    intro tokens h
    have hrest : ∀ t, PChild.str t ∈ rest → t ≠ "" :=
      fun t ht => h t (List.mem_cons_of_mem _ ht)
    cases c with
    | lst l =>
      cases tokens with
      | nil => rfl
      | cons t ts =>
        simp only [collectAux, describedCollect]
        exact ih _ hrest
    | str tok =>
      by_cases hs : pyStrip tok = ","
      · simp only [collectAux, describedCollect, if_pos hs]
        exact ih _ hrest
      · have hne : tok ≠ "" := h tok (by simp)
        simp only [collectAux, describedCollect, if_neg hs,
          strip_commas_described tok hne hs]
        exact ih _ hrest

lemma collectAux_ne_listIdx (inner : List String → String) :
    ∀ (children : List PChild) (tokens : List String), tokens ≠ [] →
      collectAux inner children tokens ≠
        Except.error (PyError.indexError "list index out of range") := by
  intro children
  induction children with
  | nil => intro tokens _; simp [collectAux]
  | cons c rest ih =>
    intro tokens h
    cases c with
    | lst l =>
      cases tokens with
      | nil => exact absurd rfl h
      | cons t ts =>
        simp only [collectAux]
        exact ih _ (appendToLast_ne_nil t ts (inner l))
    | str tok =>
      by_cases hs : pyStrip tok = ","
      · simp only [collectAux, if_pos hs]
        exact ih tokens h
      · simp only [collectAux, if_neg hs]
        cases hsc : Parser._strip_commas tok with
        | error e =>
          have he := strip_commas_error tok e hsc
          subst he
          simp
        | ok kw => exact ih (tokens ++ [kw]) (by simp)

lemma collectAux_listIdx_iff (inner : List String → String) :
    ∀ children : List PChild,
      (collectAux inner children [] =
        Except.error (PyError.indexError "list index out of range")) ↔
      firstEmitIsList children = true := by
  intro children
  induction children with
  | nil => simp [collectAux, firstEmitIsList]
  | cons c rest ih =>
    cases c with
    | lst l => simp [collectAux, firstEmitIsList]
    | str tok =>
      by_cases hs : pyStrip tok = ","
      · simp only [collectAux, firstEmitIsList, if_pos hs]
        exact ih
      · simp only [collectAux, firstEmitIsList, if_neg hs]
        cases hsc : Parser._strip_commas tok with
        | error e =>
          have he := strip_commas_error tok e hsc
          subst he
          simp
        | ok kw =>
          have hne := collectAux_ne_listIdx inner rest [kw] (by simp)
          simp [hne]

lemma firstEmit_iff_not_preceded :
    ∀ children : List PChild,
      firstEmitIsList children = true ↔ ¬ listChildPreceded children := by
  intro children
  induction children with
  | nil =>
    constructor
    · intro h
      exact absurd h (by simp [firstEmitIsList])
    · intro h
      exact absurd (fun pre l suf heq => absurd heq (by simp)) h
  | cons c rest ih =>
    cases c with
    | lst l =>
      constructor
      · intro _ hP
        obtain ⟨t, ht, _⟩ := hP [] l rest rfl
        simp at ht
      · intro _
        rfl
    | str tok =>
      by_cases hs : pyStrip tok = ","
      · have hPiff : listChildPreceded (PChild.str tok :: rest) ↔ listChildPreceded rest := by
          constructor
          · intro hP pre l suf heq
            obtain ⟨t, ht, htne⟩ := hP (PChild.str tok :: pre) l suf (by rw [heq]; rfl)
            cases List.mem_cons.mp ht with
            | inl h0 =>
              have h0' : t = tok := by
                injection h0
              rw [h0'] at htne
              exact absurd hs htne
            | inr h1 => exact ⟨t, h1, htne⟩
          · intro hP pre l suf heq
            cases pre with
            | nil => simp at heq
            | cons p0 pre' =>
              have h0 : p0 = PChild.str tok ∧ rest = pre' ++ PChild.lst l :: suf := by
                have := heq
                simp only [List.cons_append, List.cons.injEq] at this
                exact ⟨this.1.symm, this.2⟩
              obtain ⟨t, ht, htne⟩ := hP pre' l suf h0.2
              exact ⟨t, List.mem_cons_of_mem _ ht, htne⟩
        simp only [firstEmitIsList, if_pos hs]
        rw [ih]
        exact not_congr hPiff.symm
      · simp only [firstEmitIsList, if_neg hs]
        constructor
        · intro h
          exact absurd h (by simp)
        · intro hnP
          exfalso
          apply hnP
          intro pre l suf heq
          cases pre with
          | nil => simp at heq
          | cons p0 pre' =>
            have h0 : p0 = PChild.str tok := by
              have := heq
              simp only [List.cons_append, List.cons.injEq] at this
              exact this.1.symm
            exact ⟨tok, by rw [h0]; exact List.mem_cons_self _ _, hs⟩

/-! ### Claim theorems -/

/-- Claim C1: OptsSpec.parse and CompositorSpec.parse succeed only when
the grammar matches the whole stripped line exactly once: when the
number of top-level scan matches differs from one the result is the
SyntaxError Invalid specification syntax., when the single matched
prefix differs from the stripped line the result is a SyntaxError
naming the unparsed remainder line[e:], and on success both checks
held, so no partial result is ever returned. -/
theorem claim_C1 :
    (∀ (evalKw : EvalOracle) (scans : List (List OptsGroup × Nat × Nat))
       (groups : List OptsGroup) (line : String),
      scans.length ≠ 1 →
      OptsSpec.parse evalKw scans groups line =
        Except.error (PyError.syntaxError "Invalid specification syntax."))
  ∧ (∀ (evalKw : EvalOracle) (k : List OptsGroup) (s e : Nat)
       (groups : List OptsGroup) (line : String),
      pyStrip (pyTake line e) ≠ pyStrip line →
      OptsSpec.parse evalKw [(k, s, e)] groups line =
        Except.error (PyError.syntaxError
          ("Failed to parse remainder of string: " ++ pyDrop line e)))
  ∧ (∀ (evalKw : EvalOracle) (opmap : PDict Operation)
       (scans : List (List CompGroup × Nat × Nat))
       (groups : List CompGroup) (line : String),
      scans.length ≠ 1 →
      CompositorSpec.parse evalKw opmap scans groups line =
        Except.error (PyError.syntaxError "Invalid specification syntax."))
  ∧ (∀ (evalKw : EvalOracle) (opmap : PDict Operation) (k : List CompGroup)
       (s e : Nat) (groups : List CompGroup) (line : String),
      pyStrip (pyTake line e) ≠ pyStrip line →
      CompositorSpec.parse evalKw opmap [(k, s, e)] groups line =
        Except.error (PyError.syntaxError
          ("Failed to parse remainder of string: " ++ pyDrop line e)))
  ∧ (∀ (evalKw : EvalOracle) (scans : List (List OptsGroup × Nat × Nat))
       (groups : List OptsGroup) (line : String) (res : PDict OptsRecord),
      OptsSpec.parse evalKw scans groups line = Except.ok res →
      scans.length = 1 ∧
        ∀ k s e, scans = [(k, s, e)] → pyStrip (pyTake line e) = pyStrip line)
  ∧ (∀ (evalKw : EvalOracle) (opmap : PDict Operation)
       (scans : List (List CompGroup × Nat × Nat))
       (groups : List CompGroup) (line : String) (res : List CompositorDef),
      CompositorSpec.parse evalKw opmap scans groups line = Except.ok res →
      scans.length = 1 ∧
        ∀ k s e, scans = [(k, s, e)] → pyStrip (pyTake line e) = pyStrip line) := by
  refine ⟨?_, ?_, ?_, ?_, ?_, ?_⟩
  · intro evalKw scans groups line h
    simp only [OptsSpec.parse, checkWholeLine_len line scans h]
  · intro evalKw k s e groups line h
    simp only [OptsSpec.parse, checkWholeLine_rem line k s e h]
  · intro evalKw opmap scans groups line h
    simp only [CompositorSpec.parse, checkWholeLine_len line scans h]
  · intro evalKw opmap k s e groups line h
    simp only [CompositorSpec.parse, checkWholeLine_rem line k s e h]
  · intro evalKw scans groups line res h
    cases hc : checkWholeLine line scans with
    | error err =>
      rw [OptsSpec.parse, hc] at h
      exact absurd h (by simp)
    | ok u =>
      cases u
      exact checkWholeLine_ok line scans hc
  · intro evalKw opmap scans groups line res h
    cases hc : checkWholeLine line scans with
    | error err =>
      rw [CompositorSpec.parse, hc] at h
      exact absurd h (by simp)
    | ok u =>
      cases u
      exact checkWholeLine_ok line scans hc

/-- Claim C1 witness: on the line Image (a=1) extra garbage with a
single scan match ending at index 12, OptsSpec.parse reports the
unparsed remainder extra garbage. -/
theorem claim_C1_witness :
    pyStrip (pyTake "Image (a=1) extra garbage" 12) ≠
      pyStrip "Image (a=1) extra garbage"
  ∧ OptsSpec.parse evalDemo
      [([⟨"Image", none, none, some [PChild.str "a=1"]⟩], 0, 12)]
      [⟨"Image", none, none, some [PChild.str "a=1"]⟩]
      "Image (a=1) extra garbage" =
      Except.error (PyError.syntaxError
        ("Failed to parse remainder of string: " ++
          pyDrop "Image (a=1) extra garbage" 12)) :=
  ⟨by decide,
   claim_C1.2.1 evalDemo [⟨"Image", none, none, some [PChild.str "a=1"]⟩] 0 12
     [⟨"Image", none, none, some [PChild.str "a=1"]⟩]
     "Image (a=1) extra garbage" (by decide)⟩

/-- Claim C4 (amended): in Parser.todict, a token sequence that begins
with a run of tokens not containing an equals sign makes the call fail
with an uncaught IndexError (list index out of range) from indexing the
empty fragment list, rather than silently dropping the tokens (the
claim expected a SyntaxError; the code raises IndexError). -/
theorem claim_C4 :
    ∀ (evalKw : EvalOracle) (pr : List PChild) (mode t : String) (rest : List String),
      Parser.collect_tokens (some pr) mode = Except.ok (t :: rest) →
      hasEq t = false →
      Parser.todict evalKw (some pr) mode =
        Except.error (PyError.indexError "list index out of range") := by
  intro evalKw pr mode t rest h1 h2
  obtain ⟨run, rest2, hsplit⟩ := splitRuns_cons_head hasEq t rest
  rw [h2] at hsplit
  have hg : groupTokens (t :: rest) =
      Except.error (PyError.indexError "list index out of range") := by
    rw [groupTokens, hsplit]
    rfl
  simp only [Parser.todict, h1, hg]

/-- Claim C4 counterexample: on the single token foo (no equals sign)
the call fails with IndexError, not with a SyntaxError as the claim
states. -/
theorem claim_C4_counterexample :
    Parser.todict evalNone (some [PChild.str "foo"]) "parens" =
      Except.error (PyError.indexError "list index out of range")
  ∧ isSyntaxError (Parser.todict evalNone (some [PChild.str "foo"]) "parens") = false := by
  exact ⟨by decide, by decide⟩

/-- Claim C4 witness: concrete instance of the amended claim. -/
theorem claim_C4_witness :
    Parser.collect_tokens (some [PChild.str "bar"]) "parens" = Except.ok ["bar"]
  ∧ hasEq "bar" = false
  ∧ Parser.todict evalDemo (some [PChild.str "bar"]) "parens" =
      Except.error (PyError.indexError "list index out of range") :=
  ⟨by decide, by decide,
   claim_C4 evalDemo [PChild.str "bar"] "parens" "bar" [] (by decide) (by decide)⟩

/-- Claim C7: a keyword fragment that fails to evaluate (the first such
fragment of the grouped list) makes Parser.todict fail with a
SyntaxError naming that exact fragment; the failure is not swallowed
and no partial mapping is returned. -/
theorem claim_C7 :
    ∀ (evalKw : EvalOracle) (pr : List PChild) (mode : String)
      (tokens grouped : List String) (frag : String),
      Parser.collect_tokens (some pr) mode = Except.ok tokens →
      groupTokens tokens = Except.ok grouped →
      grouped.find? (fun f => (evalKw f).isNone) = some frag →
      (evalKw frag = none ∧ frag ∈ grouped) ∧
      Parser.todict evalKw (some pr) mode =
        Except.error (PyError.syntaxError ("Could not evaluate keyword: " ++ frag)) := by
  intro evalKw pr mode tokens grouped frag h1 h2 hfind
  have hnone : evalKw frag = none := by
    have := List.find?_some hfind
    simpa [Option.isNone_iff_eq_none] using this
  have hmem : frag ∈ grouped := List.mem_of_find?_eq_some hfind
  refine ⟨⟨hnone, hmem⟩, ?_⟩
  simp only [Parser.todict, h1, h2]
  exact evalFragments_fail evalKw grouped [] frag hfind

/-- Claim C7 witness: with an oracle on which a=1 fails to evaluate,
todict reports exactly that fragment. -/
theorem claim_C7_witness :
    Parser.collect_tokens (some [PChild.str "a=1"]) "parens" = Except.ok ["a=1"]
  ∧ groupTokens ["a=1"] = Except.ok ["a=1"]
  ∧ (["a=1"] : List String).find? (fun f => (evalNone f).isNone) = some "a=1"
  ∧ Parser.todict evalNone (some [PChild.str "a=1"]) "parens" =
      Except.error (PyError.syntaxError ("Could not evaluate keyword: " ++ "a=1")) :=
  ⟨by decide, by decide, by decide,
   (claim_C7 evalNone [PChild.str "a=1"] "parens" ["a=1"] ["a=1"] "a=1"
     (by decide) (by decide) (by decide)).2⟩

/-- Claim C9 (amended): collect_tokens returns the empty sequence on
None; walking the children in order, a nested-list child is joined with
no separator, wrapped in the delimiters of the mode, and appended onto
the previously emitted token; a bare-separator child is dropped; and
every other non-empty child has exactly one leading and one trailing
separator character stripped, if present.  The amendment restricts the
last rule to non-empty children: on an empty-string child the comma
stripping step indexes the empty string and raises IndexError. -/
theorem claim_C9 :
    (∀ mode : String, Parser.collect_tokens none mode = Except.ok [])
  ∧ ∀ (children : List PChild) (mode : String),
      (∀ t, PChild.str t ∈ children → t ≠ "") →
      Parser.collect_tokens (some children) mode =
        describedCollect (innerWrap mode) children [] := by
  refine ⟨fun mode => rfl, ?_⟩
  intro children mode h
  exact collectAux_described (innerWrap mode) children [] h

/-- Claim C9 counterexample: on the single empty-string child the code
raises IndexError while the claim describes the emitted token as the
unchanged empty string. -/
theorem claim_C9_counterexample :
    Parser.collect_tokens (some [PChild.str ""]) "parens" =
      Except.error (PyError.indexError "string index out of range")
  ∧ describedCollect (innerWrap "parens") [PChild.str ""] [] = Except.ok [""]
  ∧ Parser.collect_tokens (some [PChild.str ""]) "parens" ≠ Except.ok [""] := by
  exact ⟨by decide, by decide, by decide⟩

/-- Claim C9 witness: a concrete walk exercising all three child kinds
with non-empty string children. -/
theorem claim_C9_witness :
    (∀ t, PChild.str t ∈
      [PChild.str "a=1,", PChild.str ",", PChild.lst ["1", "2"], PChild.str ",b=2"] →
      t ≠ "")
  ∧ Parser.collect_tokens
      (some [PChild.str "a=1,", PChild.str ",", PChild.lst ["1", "2"], PChild.str ",b=2"])
      "brackets" =
      describedCollect (innerWrap "brackets")
        [PChild.str "a=1,", PChild.str ",", PChild.lst ["1", "2"], PChild.str ",b=2"] [] :=
  ⟨by
    intro t ht
    simp only [List.mem_cons, List.not_mem_nil, or_false] at ht
    rcases ht with h | h | h | h <;>
      first
        | exact PChild.noConfusion h
        | (injection h with h2; subst h2; decide),
   claim_C9.2 [PChild.str "a=1,", PChild.str ",", PChild.lst ["1", "2"], PChild.str ",b=2"]
     "brackets"
     (by
       intro t ht
       simp only [List.mem_cons, List.not_mem_nil, or_false] at ht
       rcases ht with h | h | h | h <;>
         first
           | exact PChild.noConfusion h
           | (injection h with h2; subst h2; decide))⟩

/-- Claim C10: collect_tokens can be total only when every nested-list
child is preceded by a non-list, non-bare-separator child: when the
first child in emitted position is a nested list, the append onto the
previous token indexes the empty token sequence and the embedding
returns the IndexError value; and that error value occurs exactly when
the precondition fails. -/
theorem claim_C10 :
    ∀ (children : List PChild) (mode : String),
      (firstEmitIsList children = true →
        Parser.collect_tokens (some children) mode =
          Except.error (PyError.indexError "list index out of range"))
    ∧ (Parser.collect_tokens (some children) mode =
          Except.error (PyError.indexError "list index out of range") ↔
        ¬ listChildPreceded children) := by
  intro children mode
  have h1 := collectAux_listIdx_iff (innerWrap mode) children
  have h2 := firstEmit_iff_not_preceded children
  have hck : Parser.collect_tokens (some children) mode =
      collectAux (innerWrap mode) children [] := rfl
  constructor
  · intro hf
    rw [hck]
    exact h1.mpr hf
  · rw [hck, h1, h2]

/-- Claim C10 witness: a parse result whose first child is a nested
list makes collect_tokens return the IndexError value. -/
theorem claim_C10_witness :
    firstEmitIsList [PChild.str " , ", PChild.lst ["x"]] = true
  ∧ Parser.collect_tokens (some [PChild.str " , ", PChild.lst ["x"]]) "parens" =
      Except.error (PyError.indexError "list index out of range") :=
  ⟨by decide, (claim_C10 [PChild.str " , ", PChild.lst ["x"]] "parens").1 (by decide)⟩

/-- Claim C2: process_normalization returns None for an absent norm
block and for an empty token list; for a valid non-empty token list it
returns the groupwise/mapwise pair in which an unspecified family
defaults to true and a specified family takes its explicit sign; in
particular a lone +mapwise gives both true, a lone -groupwise gives
groupwise false and mapwise true, and with one flag of each family each
boolean is true exactly when the positive form of that family is
present. -/
theorem claim_C2 :
    OptsSpec.process_normalization none = Except.ok none
  ∧ OptsSpec.process_normalization (some []) = Except.ok none
  ∧ OptsSpec.process_normalization (some ["+mapwise"]) = Except.ok (some ⟨true, true⟩)
  ∧ OptsSpec.process_normalization (some ["-groupwise"]) = Except.ok (some ⟨false, true⟩)
  ∧ ∀ opts : List String, opts ≠ [] →
      (∀ o ∈ opts, o ∈ normFlags) →
      (∀ f ∈ normFlags, opts.count f ≤ 1) →
      ¬ ("+mapwise" ∈ opts ∧ "-mapwise" ∈ opts) →
      ¬ ("+groupwise" ∈ opts ∧ "-groupwise" ∈ opts) →
      OptsSpec.process_normalization (some opts) =
        Except.ok (some ⟨famDefault opts "+groupwise" "-groupwise",
                         famDefault opts "+mapwise" "-mapwise"⟩) := by
  refine ⟨rfl, by decide, by decide, by decide, ?_⟩
  intro opts hne hall hcount hmap hgroup
  match opts, hne with
  | [x], _ =>
    have hx := hall x (by simp)
    simp only [normFlags, List.mem_cons, List.not_mem_nil, or_false] at hx
    rcases hx with rfl | rfl | rfl | rfl <;> decide
  | x :: y :: ys, _ =>
    obtain ⟨hmapfam, hgroupfam⟩ := both_families_present x y ys hall hcount hmap hgroup
    have hfind :
        List.find? (fun f => decide (1 < (x :: y :: ys).count f)) normFlags = none := by
      refine List.find?_eq_none.mpr (fun f hf => ?_)
      simpa using Nat.not_lt.mpr (hcount f hf)
    have hfind2 :
        List.find? (fun p => decide (p.1 ∈ x :: y :: ys) && decide (p.2 ∈ x :: y :: ys))
          excludedPairs = none := by
      refine List.find?_eq_none.mpr (fun p hp => ?_)
      fin_cases hp <;> simp only [Bool.and_eq_true, decide_eq_true_eq, not_and]
      · exact fun h1 h2 => hmap ⟨h1, h2⟩
      · exact fun h1 h2 => hgroup ⟨h1, h2⟩
    have hred : reduceNorm (x :: y :: ys) =
        ⟨decide ("+groupwise" ∈ x :: y :: ys), decide ("+mapwise" ∈ x :: y :: ys)⟩ := rfl
    simp only [OptsSpec.process_normalization, if_neg (List.cons_ne_nil x (y :: ys)),
      hfind, if_neg (not_not_intro hall), hfind2, hred]
    rw [famDefault_of_family hgroupfam, famDefault_of_family hmapfam]

/-- Claim C2 witness: a concrete valid token list with one flag of each
family reduces as the general clause of the claim states. -/
theorem claim_C2_witness :
    OptsSpec.process_normalization (some ["+mapwise", "-groupwise"]) =
      Except.ok (some ⟨famDefault ["+mapwise", "-groupwise"] "+groupwise" "-groupwise",
                       famDefault ["+mapwise", "-groupwise"] "+mapwise" "-mapwise"⟩) :=
  claim_C2.2.2.2.2 ["+mapwise", "-groupwise"] (by decide) (by decide) (by decide)
    (by decide) (by decide)

/-- Claim C3: the source intends a SyntaxError naming an unknown
compositor operation, but the lookup opmap[op] happens before the
membership test, so the line data unknownop (A * B) C with an
unregistered unknownop raises KeyError instead; the SyntaxError branch
is unreachable.  This evaluates the code at the failing input. -/
theorem claim_C3 :
    CompositorSpec.parse evalDemo [("add", ⟨"add"⟩)]
      [([⟨some "data", "unknownop", ["A", "*", "B"], "C", none⟩], 0, 24)]
      [⟨some "data", "unknownop", ["A", "*", "B"], "C", none⟩]
      "data unknownop (A * B) C" =
      Except.error (PyError.keyError "unknownop")
  ∧ isSyntaxError (CompositorSpec.parse evalDemo [("add", ⟨"add"⟩)]
      [([⟨some "data", "unknownop", ["A", "*", "B"], "C", none⟩], 0, 24)]
      [⟨some "data", "unknownop", ["A", "*", "B"], "C", none⟩]
      "data unknownop (A * B) C") = false := by
  exact ⟨by decide, by decide⟩

/-- Claim C5: when OptsSpec.parse succeeds, the entry of the result for
a path spec is the options record computed from the last group of the
line whose path spec is that string; earlier groups with the same path
spec are overwritten, not merged. -/
theorem claim_C5 :
    ∀ (evalKw : EvalOracle) (scans : List (List OptsGroup × Nat × Nat))
      (groups : List OptsGroup) (line : String) (res : PDict OptsRecord)
      (path : String) (gLast : OptsGroup),
      OptsSpec.parse evalKw scans groups line = Except.ok res →
      (groups.filter (fun g => decide (g.pathspec = path))).getLast? = some gLast →
      pyGet? res path = Except.toOption (processGroup evalKw gLast) := by
  intro evalKw scans groups line res path gLast h hlast
  cases hc : checkWholeLine line scans with
  | error e =>
    rw [OptsSpec.parse, hc] at h
    exact absurd h (by simp)
  | ok u =>
    cases u
    rw [OptsSpec.parse, hc] at h
    obtain ⟨r, hr, hget⟩ := (foldOpts_last evalKw groups [] res path h).1 gLast hlast
    rw [hget, hr]
    rfl

/-- Claim C5 witness: on Image (a=1) Image (a=2) the entry for Image is
the record of the second group, with style option a set to 2. -/
theorem claim_C5_witness :
    OptsSpec.parse evalDemo
      [([⟨"Image", none, none, some [PChild.str "a=1"]⟩,
         ⟨"Image", none, none, some [PChild.str "a=2"]⟩], 0, 23)]
      [⟨"Image", none, none, some [PChild.str "a=1"]⟩,
       ⟨"Image", none, none, some [PChild.str "a=2"]⟩]
      "Image (a=1) Image (a=2)" =
      Except.ok [("Image", ⟨none, none, some [("a", PyVal.int 2)]⟩)]
  ∧ pyGet? [("Image", (⟨none, none, some [("a", PyVal.int 2)]⟩ : OptsRecord))] "Image" =
      Except.toOption (processGroup evalDemo ⟨"Image", none, none, some [PChild.str "a=2"]⟩) :=
  ⟨by decide,
   claim_C5 evalDemo
     [([⟨"Image", none, none, some [PChild.str "a=1"]⟩,
        ⟨"Image", none, none, some [PChild.str "a=2"]⟩], 0, 23)]
     [⟨"Image", none, none, some [PChild.str "a=1"]⟩,
      ⟨"Image", none, none, some [PChild.str "a=2"]⟩]
     "Image (a=1) Image (a=2)"
     [("Image", ⟨none, none, some [("a", PyVal.int 2)]⟩)]
     "Image" ⟨"Image", none, none, some [PChild.str "a=2"]⟩
     (by decide) (by decide)⟩

/-- Claim C8: a successful CompositorSpec.parse returns one definition
record per matched group in source order, and the record of a group
carries the mode word of the group, the operation resolved from the
name table, the overlay-spec tokens re-joined with single spaces, the
value-name word, and the settings mapping of the bracketed settings
block when present (empty otherwise); the concrete line
data add (A * B) C [kwarg=1] with a registered add yields exactly the
definition described by the claim. -/
theorem claim_C8 :
    (∀ (evalKw : EvalOracle) (opmap : PDict Operation)
       (scans : List (List CompGroup × Nat × Nat))
       (groups : List CompGroup) (line : String) (defs : List CompositorDef),
      CompositorSpec.parse evalKw opmap scans groups line = Except.ok defs →
      mapExcept (processCompGroup evalKw opmap) groups = Except.ok defs ∧
        defs.length = groups.length)
  ∧ (∀ (evalKw : EvalOracle) (opmap : PDict Operation) (g : CompGroup)
       (d : CompositorDef),
      processCompGroup evalKw opmap g = Except.ok d →
      g.mode = some d.mode ∧
      pyGet? opmap g.op = some d.operation ∧
      d.spec = String.intercalate " " g.spec ∧
      d.value = g.value ∧
      (g.op_settings = none → d.kwargs = []) ∧
      (∀ st, g.op_settings = some st →
        Parser.todict evalKw (some st) "brackets" = Except.ok d.kwargs))
  ∧ CompositorSpec.parse evalDemo [("add", ⟨"add"⟩)]
      [([⟨some "data", "add", ["A", "*", "B"], "C", some [PChild.str "kwarg=1"]⟩], 0, 28)]
      [⟨some "data", "add", ["A", "*", "B"], "C", some [PChild.str "kwarg=1"]⟩]
      "data add (A * B) C [kwarg=1]" =
      Except.ok [⟨"A * B", ⟨"add"⟩, "C", "data", [("kwarg", PyVal.int 1)]⟩] := by
  refine ⟨?_, ?_, by decide⟩
  · intro evalKw opmap scans groups line defs h
    cases hc : checkWholeLine line scans with
    | error e =>
      rw [CompositorSpec.parse, hc] at h
      exact absurd h (by simp)
    | ok u =>
      cases u
      rw [CompositorSpec.parse, hc] at h
      obtain ⟨ds, hmap, hres⟩ := foldComp_mapExcept evalKw opmap groups [] defs h
      have hds : defs = ds := by simpa using hres
      subst hds
      exact ⟨hmap, mapExcept_ok_length _ groups defs hmap⟩
  · intro evalKw opmap g d h
    obtain ⟨mo, op, sp, v, st⟩ := g
    cases mo with
    | none => exact absurd h (by simp [processCompGroup])
    | some m =>
      simp only [processCompGroup] at h
      by_cases hm : m = "data" ∨ m = "display"
      · rw [if_neg (not_not_intro hm)] at h
        cases hop : pyGet? opmap op with
        | none =>
          rw [hop] at h
          simp at h
        | some operation =>
          simp only [hop] at h
          rw [if_neg (by simp)] at h
          cases st with
          | none =>
            have hd : (⟨String.intercalate " " sp, operation, v, m, []⟩ : CompositorDef) = d := by
              simpa using h
            subst hd
            exact ⟨rfl, rfl, rfl, rfl, fun _ => rfl, fun st2 hst2 => by simp at hst2⟩
          | some stv =>
            cases ht : Parser.todict evalKw (some stv) "brackets" with
            | error e =>
              simp only [ht] at h
              exact absurd h (by simp)
            | ok kw =>
              simp only [ht] at h
              have hd : (⟨String.intercalate " " sp, operation, v, m, kw⟩ : CompositorDef) = d := by
                simpa using h
              subst hd
              refine ⟨rfl, rfl, rfl, rfl, by simp, ?_⟩
              intro st2 hst2
              have : stv = st2 := by simpa using hst2
              subst this
              exact ht
      · rw [if_pos hm] at h
        simp at h

/-- Claim C8 witness: applying the general per-line clause at the
concrete compositor example. -/
theorem claim_C8_witness :
    mapExcept (processCompGroup evalDemo [("add", ⟨"add"⟩)])
      [⟨some "data", "add", ["A", "*", "B"], "C", some [PChild.str "kwarg=1"]⟩] =
      Except.ok [⟨"A * B", ⟨"add"⟩, "C", "data", [("kwarg", PyVal.int 1)]⟩]
  ∧ ([(⟨"A * B", ⟨"add"⟩, "C", "data", [("kwarg", PyVal.int 1)]⟩ : CompositorDef)]).length =
      ([(⟨some "data", "add", ["A", "*", "B"], "C", some [PChild.str "kwarg=1"]⟩ : CompGroup)]).length :=
  claim_C8.1 evalDemo [("add", ⟨"add"⟩)]
    [([⟨some "data", "add", ["A", "*", "B"], "C", some [PChild.str "kwarg=1"]⟩], 0, 28)]
    [⟨some "data", "add", ["A", "*", "B"], "C", some [PChild.str "kwarg=1"]⟩]
    "data add (A * B) C [kwarg=1]"
    [⟨"A * B", ⟨"add"⟩, "C", "data", [("kwarg", PyVal.int 1)]⟩]
    (by decide)

/-- Claim C6: process_normalization validates in order: a recognized
flag repeated in the token list (found first in the fixed flag order)
raises a SyntaxError naming it; with no repeats, a token outside the
four recognized flags raises a SyntaxError; with no repeats and all
tokens recognized, an exclusive pair both of whose members are present
raises a SyntaxError naming the pair. -/
theorem claim_C6 : ∀ opts : List String,
    (∀ o, List.find? (fun f => decide (1 < opts.count f)) normFlags = some o →
      1 < opts.count o ∧
      OptsSpec.process_normalization (some opts) =
        Except.error (PyError.syntaxError (repeatedMsg o)))
  ∧ (List.find? (fun f => decide (1 < opts.count f)) normFlags = none →
      (∃ t ∈ opts, t ∉ normFlags) →
      OptsSpec.process_normalization (some opts) =
        Except.error (PyError.syntaxError unknownMsg))
  ∧ (∀ a b, List.find? (fun f => decide (1 < opts.count f)) normFlags = none →
      (∀ o ∈ opts, o ∈ normFlags) →
      List.find? (fun p => decide (p.1 ∈ opts) && decide (p.2 ∈ opts)) excludedPairs
        = some (a, b) →
      (a ∈ opts ∧ b ∈ opts) ∧
      OptsSpec.process_normalization (some opts) =
        Except.error (PyError.syntaxError (pairMsg a b))) := by
  intro opts
  refine ⟨?_, ?_, ?_⟩
  · intro o hfind
    have hlt : 1 < opts.count o := by simpa using List.find?_some hfind
    have hne : opts ≠ [] := by
      intro h
      rw [h] at hlt
      simp at hlt
    refine ⟨hlt, ?_⟩
    simp only [OptsSpec.process_normalization, if_neg hne, hfind]
  · intro hfind hex
    obtain ⟨t, ht, hnt⟩ := hex
    have hne : opts ≠ [] := by
      intro h
      rw [h] at ht
      simp at ht
    have hcond : ¬ ∀ o ∈ opts, o ∈ normFlags := fun hall => hnt (hall t ht)
    simp only [OptsSpec.process_normalization, if_neg hne, hfind, if_pos hcond]
  · intro a b hfind hall hfind2
    have hab : a ∈ opts ∧ b ∈ opts := by simpa using List.find?_some hfind2
    have hne : opts ≠ [] := by
      intro h
      rw [h] at hab
      simp at hab
    refine ⟨hab, ?_⟩
    simp only [OptsSpec.process_normalization, if_neg hne, hfind,
      if_neg (not_not_intro hall), hfind2]

/-- Claim C6 witness: the three validation errors at concrete inputs:
a repeated +mapwise, an unrecognized token, and the exclusive mapwise
pair. -/
theorem claim_C6_witness :
    (1 < (["+mapwise", "+mapwise"] : List String).count "+mapwise" ∧
      OptsSpec.process_normalization (some ["+mapwise", "+mapwise"]) =
        Except.error (PyError.syntaxError (repeatedMsg "+mapwise")))
  ∧ OptsSpec.process_normalization (some ["bogus"]) =
      Except.error (PyError.syntaxError unknownMsg)
  ∧ (("+mapwise" ∈ (["+mapwise", "-mapwise"] : List String) ∧
      "-mapwise" ∈ (["+mapwise", "-mapwise"] : List String)) ∧
      OptsSpec.process_normalization (some ["+mapwise", "-mapwise"]) =
        Except.error (PyError.syntaxError (pairMsg "+mapwise" "-mapwise"))) :=
  ⟨(claim_C6 ["+mapwise", "+mapwise"]).1 "+mapwise" (by decide),
   (claim_C6 ["bogus"]).2.1 (by decide) (by decide),
   (claim_C6 ["+mapwise", "-mapwise"]).2.2 "+mapwise" "-mapwise" (by decide) (by decide)
     (by decide)⟩
